import Mathlib

/-
Verification of the concurrent image scraper in data_scraper2.py.

The Python source is modelled by a shallow embedding:
* external effects (HTTP responses, the DuckDuckGo backend, the set
  iteration order used by the memory-bound truncation, urllib's URL
  parser and the mimetypes table) are oracle parameters;
* each retry loop consumes a list of per-attempt outcomes, one entry per
  iteration of the Python for-loop;
* the orchestrator while-loop is driven by explicit fuel, one unit per
  iteration;
* Python sets are modelled as duplicate-free lists in insertion order,
  with an iteration-order oracle standing for list(s) where the source
  converts a set to a list;
* the worker pool is modelled sequentially: futures are collected in
  submission order, and state effects of workers past the early break
  still happen (the executor context manager waits for them).
Exceptions raised by download_images itself are modelled by the err
constructor of RunResult (the only reachable one is the ZeroDivisionError
of search_terms[term_index % len(search_terms)] on an empty list).
-/

/-- Result of urllib.parse.urlparse, restricted to the two fields the
source reads (netloc at line 35, path inside get_extension). -/
structure UrlParts where
  netloc : String
  path : String

/-- Python str.startswith on character lists; first argument is the
pattern, second the scanned text. -/
def beginsWith : List Char → List Char → Bool
  | [], _ => true
  | _ :: _, [] => false
  | p :: ps, c :: cs => p == c && beginsWith ps cs

/-- Python s.lstrip(".") on character lists. -/
def lstripDots (cs : List Char) : List Char := cs.dropWhile (fun c => c == '.')

/-- Characters after the last '/' of a path (the basename part that
os.path.splitext inspects). -/
def baseNameChars (cs : List Char) : List Char :=
  cs.foldl (fun acc c => if c == '/' then [] else acc ++ [c]) []

/-- Split a character list at its last dot: returns (chars before the
last dot, chars from the last dot on), or none when there is no dot. -/
def splitLastDot : List Char → Option (List Char × List Char)
  | [] => none
  | c :: rest =>
    match splitLastDot rest with
    | some pe => some (c :: pe.1, pe.2)
    | none => if c == '.' then some ([], c :: rest) else none

/-- os.path.splitext(path)[1]: the extension including its leading dot,
empty when the basename has no dot or only leading dots (hidden files). -/
def splitextExt (path : List Char) : List Char :=
  match splitLastDot (baseNameChars path) with
  | none => []
  | some pe => if pe.1.any (fun c => c != '.') then pe.2 else []

/-- get_extension_from_url_or_content(url, response), lines 22-31.
guessExt is the oracle for mimetypes.guess_extension, parse the oracle
for urlparse; ctype is response.headers.get("content-type", ""). -/
def get_extension_from_url_or_content (guessExt : String → Option String)
    (parse : String → UrlParts) (url : String) (ctype : String) : String :=
  let ext := splitextExt (parse url).path.data
  if ext ≠ [] ∧ ext.length ≤ 5 then String.mk (lstripDots ext)
  else
    match guessExt (String.mk (ctype.data.takeWhile (fun c => c != ';'))) with
    | some g => String.mk (lstripDots g.data)
    | none => "jpg"

/-- Outcome of one iteration of the retry loop in download_image:
either session.get (or reading the body) raised, or a response arrived
with the given status, raw content-type header and payload bytes;
writeOk records whether the open/write at lines 52-53 would succeed. -/
inductive AttemptEvent where
  | netFail : AttemptEvent
  | resp (status : Nat) (ctype : String) (body : List Nat) (writeOk : Bool) : AttemptEvent

/-- Shared state read and written by download_image: the hash set
guarded by the lock, the domain blocklist, and the files persisted so
far (in write order). -/
structure FetchState where
  seen_hashes : List String
  bad_domains : List String
  files : List String

/-- Python set.add on the duplicate-free list model. -/
def insertSet (x : String) (s : List String) : List String := if x ∈ s then s else s ++ [x]

/-- The acceptance test at line 41: status 200 and a content-type that
startswith "image". -/
def acceptedResp (status : Nat) (ctype : String) : Bool :=
  status == 200 && beginsWith "image".data ctype.data

/-- The deterministic file name of line 51:
folder/person_with_underscores_hash.ext. -/
def mkFilePath (folder person h ext : String) : String :=
  folder ++ "/" ++ String.mk (person.data.map (fun c => if c == ' ' then '_' else c))
    ++ "_" ++ h ++ "." ++ ext

/-- The retry loop of download_image (lines 38-59).  Returns the result,
the final state and the number of network requests issued.  Falling off
the end of the attempt list registers the host in bad_domains (line 58). -/
def downloadGo (md5 : List Nat → String) (guessExt : String → Option String)
    (parse : String → UrlParts) (url folder person : String) :
    List AttemptEvent → FetchState → Nat → Option String × FetchState × Nat
  | [], st, reqs =>
    (none, ⟨st.seen_hashes, insertSet (parse url).netloc st.bad_domains, st.files⟩, reqs)
  | AttemptEvent.netFail :: rest, st, reqs =>
    downloadGo md5 guessExt parse url folder person rest st (reqs + 1)
  | AttemptEvent.resp status ctype body writeOk :: rest, st, reqs =>
    if acceptedResp status ctype then
      if md5 body ∈ st.seen_hashes then (none, st, reqs + 1)
      else
        if writeOk then
          (some (mkFilePath folder person (md5 body)
              (get_extension_from_url_or_content guessExt parse url ctype)),
            ⟨st.seen_hashes ++ [md5 body], st.bad_domains,
              st.files ++ [mkFilePath folder person (md5 body)
                (get_extension_from_url_or_content guessExt parse url ctype)]⟩,
            reqs + 1)
        else
          downloadGo md5 guessExt parse url folder person rest
            ⟨st.seen_hashes ++ [md5 body], st.bad_domains, st.files⟩ (reqs + 1)
    else downloadGo md5 guessExt parse url folder person rest st (reqs + 1)

/-- download_image (lines 33-59).  The pre-check at lines 34-36 returns
None with zero network requests when the host is blocklisted. -/
def download_image (md5 : List Nat → String) (guessExt : String → Option String)
    (parse : String → UrlParts) (url folder person : String)
    (attempts : List AttemptEvent) (st : FetchState) : Option String × FetchState × Nat :=
  if (parse url).netloc ∈ st.bad_domains then (none, st, 0)
  else downloadGo md5 guessExt parse url folder person attempts st 0

/-- True when the retry loop of download_image runs through the whole
attempt list without an early return, i.e. when the call exhausts its
retry bound and reaches line 58. -/
def exhaustsAttempts (md5 : List Nat → String) : List String → List AttemptEvent → Bool
  | _, [] => true
  | seen, AttemptEvent.netFail :: rest => exhaustsAttempts md5 seen rest
  | seen, AttemptEvent.resp status ctype body writeOk :: rest =>
    if acceptedResp status ctype then
      if md5 body ∈ seen then false
      else if writeOk then false
      else exhaustsAttempts md5 (seen ++ [md5 body]) rest
    else exhaustsAttempts md5 seen rest

/-- Outcome of one iteration of the retry loop in fetch_image_urls:
either the DDGS call raised, or it produced a result list whose entries
are r.get("image") (None when the key is missing). -/
inductive SearchAttempt where
  | backendFail : SearchAttempt
  | ok (results : List (Option String)) : SearchAttempt

/-- The collection loop of fetch_image_urls (lines 66-74): filter out
falsy and already-seen URLs, add fresh ones to seen_urls, and stop once
total_needed URLs are gathered (the length test runs after each result). -/
def collectUrls (total_needed : Nat) :
    List (Option String) → List String → List String → List String × List String
  | [], seen, urls => (urls, seen)
  | none :: rest, seen, urls =>
    if total_needed ≤ urls.length then (urls, seen)
    else collectUrls total_needed rest seen urls
  | some url :: rest, seen, urls =>
    if url ≠ "" ∧ url ∉ seen then
      if total_needed ≤ urls.length + 1 then (urls ++ [url], seen ++ [url])
      else collectUrls total_needed rest (seen ++ [url]) (urls ++ [url])
    else
      if total_needed ≤ urls.length then (urls, seen)
      else collectUrls total_needed rest seen urls

/-- fetch_image_urls (lines 61-78): retry on backend failure, collect on
the first successful backend call, return [] after exhausting retries.
Returns the url list and the updated seen_urls set. -/
def fetch_image_urls : List SearchAttempt → Nat → List String → List String × List String
  | [], _, seen => ([], seen)
  | SearchAttempt.backendFail :: rest, n, seen => fetch_image_urls rest n seen
  | SearchAttempt.ok results :: _, n, seen => collectUrls n results seen []

/-- The memory-control truncation of lines 131-134:
if len(s) > 50000 then set(list(s)[-25000:]) else s, with iterOrd the
oracle for the iteration order that list(s) observes. -/
def truncateSet {α : Type} (iterOrd : List α → List α) (s : List α) : List α :=
  if 50000 < s.length then (iterOrd s).drop ((iterOrd s).length - 25000) else s

/-- Modelled from the spec: the 25000 most recently inserted entries of
a set held as a list in insertion order (the retention policy the spec
claims for the truncation step). -/
def mostRecentlyInserted {α : Type} (n : Nat) (s : List α) : List α :=
  s.drop (s.length - n)

/-- All ambient parameters of one download_images run: the modelled
external collaborators plus the arguments the source keeps in scope. -/
structure ScrapeCtx where
  md5 : List Nat → String
  guessExt : String → Option String
  parse : String → UrlParts
  iterOrd : List String → List String
  searchO : Nat → String → List SearchAttempt
  fetchO : Nat → Nat → List AttemptEvent
  terms : List String
  folder : String
  person : String
  num : Nat
  batch_size : Nat

/-- Orchestrator state across while-loop iterations (lines 85-91). -/
structure OrchState where
  fs : FetchState
  seen_urls : List String
  downloaded_count : Nat
  batch_number : Nat
  term_index : Nat

/-- The dispatch/collect phase (lines 110-125), sequentially: every URL
is fetched (the executor waits for all futures on exit), but successes
are only counted while downloaded_count < num_images, mirroring the
break at lines 122-123. -/
def dispatchGo (C : ScrapeCtx) (iter : Nat) : List String → Nat → OrchState → OrchState
  | [], _, st => st
  | url :: rest, j, st =>
    dispatchGo C iter rest (j + 1)
      ⟨(download_image C.md5 C.guessExt C.parse url C.folder C.person (C.fetchO iter j) st.fs).2.1,
        st.seen_urls,
        (if (download_image C.md5 C.guessExt C.parse url C.folder C.person
              (C.fetchO iter j) st.fs).1.isSome ∧ st.downloaded_count < C.num
          then st.downloaded_count + 1 else st.downloaded_count),
        st.batch_number, st.term_index⟩

/-- The bookkeeping after a dispatch round (lines 127-134): advance
batch_number and term_index, truncate both seen sets. -/
def afterRound (C : ScrapeCtx) (st : OrchState) : OrchState :=
  ⟨⟨truncateSet C.iterOrd st.fs.seen_hashes, st.fs.bad_domains, st.fs.files⟩,
    truncateSet C.iterOrd st.seen_urls, st.downloaded_count, st.batch_number + 1,
    st.term_index + 1⟩

/-- The SEARCH phase of one while-iteration (lines 96-101): pick the
keyword, request min(batch_size, remaining) URLs. -/
def searchPhase (C : ScrapeCtx) (iter : Nat) (st : OrchState) : List String × List String :=
  fetch_image_urls (C.searchO iter (C.terms.getD (st.term_index % C.terms.length) ""))
    (min C.batch_size (C.num - st.downloaded_count)) st.seen_urls

/-- Result of a download_images run: normal completion, out of fuel, or
an exception escaping the orchestrator. -/
inductive RunResult where
  | done (st : OrchState) : RunResult
  | fuelOut (st : OrchState) : RunResult
  | err (msg : String) : RunResult

/-- One iteration of the while body (lines 96-138): Sum.inl ends the
run (exception or the break at line 107), Sum.inr continues with the
next state. -/
def roundStep (C : ScrapeCtx) (iter : Nat) (st : OrchState) : RunResult ⊕ OrchState :=
  if C.terms.length = 0 then Sum.inl (RunResult.err "ZeroDivisionError")
  else if (searchPhase C iter st).1 = [] then
    (if C.terms.length ≤ st.term_index + 1 then
      Sum.inl (RunResult.done
        ⟨st.fs, (searchPhase C iter st).2, st.downloaded_count, st.batch_number,
          st.term_index + 1⟩)
    else
      Sum.inr ⟨st.fs, (searchPhase C iter st).2, st.downloaded_count, st.batch_number,
        st.term_index + 1⟩)
  else
    Sum.inr (afterRound C (dispatchGo C iter (searchPhase C iter st).1 0
      ⟨st.fs, (searchPhase C iter st).2, st.downloaded_count, st.batch_number,
        st.term_index⟩))

/-- The while loop of download_images (line 95), fuel-bounded; iter
numbers the while-iterations and indexes the oracles. -/
def run (C : ScrapeCtx) : Nat → Nat → OrchState → RunResult
  | _, 0, st => RunResult.fuelOut st
  | iter, fuel + 1, st =>
    if st.downloaded_count < C.num then
      match roundStep C iter st with
      | Sum.inl r => r
      | Sum.inr st2 => run C (iter + 1) fuel st2
    else RunResult.done st

/-- download_images (lines 80-140).  threads and pause_time have no
effect in the sequential model and are omitted; fuel bounds the number
of while-iterations. -/
def download_images (md5 : List Nat → String) (guessExt : String → Option String)
    (parse : String → UrlParts) (iterOrd : List String → List String)
    (searchO : Nat → String → List SearchAttempt) (fetchO : Nat → Nat → List AttemptEvent)
    (search_terms : List String) (save_name : String) (num_images : Nat)
    (save_folder : String) (batch_size : Nat) (fuel : Nat) : RunResult :=
  run ⟨md5, guessExt, parse, iterOrd, searchO, fetchO, search_terms,
      save_folder ++ "/" ++ String.mk (save_name.data.map (fun c => if c == ' ' then '_' else c)),
      save_name, num_images, batch_size⟩ 0 fuel ⟨⟨[], [], []⟩, [], 0, 0, 0⟩

/-- The blocklist of the initial state is never shrunk by a run result. -/
def badMonotone (st : OrchState) : RunResult → Prop
  | RunResult.done st2 => st.fs.bad_domains ⊆ st2.fs.bad_domains
  | RunResult.fuelOut st2 => st.fs.bad_domains ⊆ st2.fs.bad_domains
  | RunResult.err _ => True

theorem filterMap_id_cons_some (u : String) (l : List (Option String)) :
    (some u :: l).filterMap id = u :: l.filterMap id := by
  simp [List.filterMap_cons]

theorem filterMap_id_cons_none (l : List (Option String)) :
    ((none : Option String) :: l).filterMap id = l.filterMap id := by
  simp [List.filterMap_cons]

theorem collect_spec (n : Nat) :
    ∀ (results : List (Option String)) (seen urls : List String),
    ∃ nw, collectUrls n results seen urls = (urls ++ nw, seen ++ nw) ∧
      (∀ x ∈ nw, x ∉ seen ∧ x ≠ "") ∧ nw.Nodup ∧ nw.Sublist (results.filterMap id) ∧
      (urls.length < n → urls.length + nw.length ≤ n) := by
  intro results
  induction results with
  | nil =>
    intro seen urls
    exact ⟨[], by simp [collectUrls], by simp, by simp, by simp,
      fun h => by simp only [List.length_nil, Nat.add_zero]; omega⟩
  | cons r rest ih =>
    intro seen urls
    cases r with
    | none =>
      by_cases hstop : n ≤ urls.length
      · exact ⟨[], by simp [collectUrls, hstop], by simp, by simp, by simp,
          fun h => by simp only [List.length_nil, Nat.add_zero]; omega⟩
      · obtain ⟨nw, h1, h2, h3, h4, h5⟩ := ih seen urls
        refine ⟨nw, ?_, h2, h3, ?_, h5⟩
        · simpa [collectUrls, hstop] using h1
        · rw [filterMap_id_cons_none]; exact h4
    | some url =>
      by_cases hu : url ≠ "" ∧ url ∉ seen
      · by_cases hstop : n ≤ urls.length + 1
        · refine ⟨[url], by simp [collectUrls, hu, hstop], ?_, by simp, ?_,
            fun h => by simp only [List.length_singleton]; omega⟩
          · intro x hx
            rw [List.mem_singleton] at hx
            subst hx
            exact ⟨hu.2, hu.1⟩
          · rw [filterMap_id_cons_some]
            exact List.Sublist.cons₂ url (List.nil_sublist _)
        · obtain ⟨nw, h1, h2, h3, h4, h5⟩ := ih (seen ++ [url]) (urls ++ [url])
          refine ⟨url :: nw, ?_, ?_, ?_, ?_, ?_⟩
          · simpa [collectUrls, hu, hstop, List.append_assoc] using h1
          · intro x hx
            rcases List.mem_cons.1 hx with hx | hx
            · subst hx; exact ⟨hu.2, hu.1⟩
            · have := h2 x hx
              constructor
              · intro hc; exact this.1 (List.mem_append_left _ hc)
              · exact this.2
          · refine List.nodup_cons.2 ⟨?_, h3⟩
            intro hc
            exact (h2 url hc).1 (List.mem_append_right _ (List.mem_singleton.2 rfl))
          · rw [filterMap_id_cons_some]
            exact List.Sublist.cons₂ url h4
          · intro h
            have hlt : (urls ++ [url]).length < n := by
              simp only [List.length_append, List.length_singleton]
              omega
            have := h5 hlt
            simp only [List.length_append, List.length_singleton, List.length_cons] at this ⊢
            omega
      · by_cases hstop : n ≤ urls.length
        · exact ⟨[], by simp [collectUrls, hu, hstop], by simp, by simp, by simp,
            fun h => by simp only [List.length_nil, Nat.add_zero]; omega⟩
        · obtain ⟨nw, h1, h2, h3, h4, h5⟩ := ih seen urls
          refine ⟨nw, ?_, h2, h3, ?_, h5⟩
          · simpa [collectUrls, hu, hstop] using h1
          · rw [filterMap_id_cons_some]
            exact List.Sublist.cons _ h4

/-- C5 (amended): on a successful backend attempt, fetch_image_urls
returns exactly the fresh non-empty URLs, inserts them into seen_urls as
a side effect (the new set is the old one extended by the returned
list), returns no duplicates, preserves the backend order as a
subsequence, and — provided total_needed is at least 1 — returns at most
total_needed URLs.  (As stated the claim also asserts the length bound
for total_needed = 0, which the code violates.) -/
theorem c5_fetch_image_urls_props (results : List (Option String)) (n : Nat)
    (seen : List String) :
    ∃ nw, fetch_image_urls [SearchAttempt.ok results] n seen = (nw, seen ++ nw) ∧
      (∀ x ∈ nw, x ∉ seen ∧ x ≠ "") ∧ nw.Nodup ∧ nw.Sublist (results.filterMap id) ∧
      (1 ≤ n → nw.length ≤ n) := by
  obtain ⟨nw, h1, h2, h3, h4, h5⟩ := collect_spec n results seen []
  refine ⟨nw, ?_, h2, h3, h4, ?_⟩
  · simpa [fetch_image_urls] using h1
  · intro hn
    have := h5 (by simpa using hn)
    simpa using this

/-- C5 counterexample: with total_needed = 0 and a backend result
containing one fresh URL, fetch_image_urls returns a list of length 1,
violating the claimed bound length ≤ total_needed (the length check runs
only after a URL has been appended). -/
theorem c5_counterexample :
    (fetch_image_urls [SearchAttempt.ok [some "u"]] 0 []).1 = ["u"] ∧
    ¬ ((fetch_image_urls [SearchAttempt.ok [some "u"]] 0 []).1.length ≤ 0) := by
  constructor
  · rfl
  · decide

theorem c5_fetch_image_urls_props_witness :
    (fetch_image_urls [SearchAttempt.ok [some "a", none, some "a", some "", some "b", some "c"]]
      2 ["x"]).1.length ≤ 2 := by
  obtain ⟨nw, heq, _, _, _, hlen⟩ :=
    c5_fetch_image_urls_props [some "a", none, some "a", some "", some "b", some "c"] 2 ["x"]
  rw [heq]
  exact hlen (by omega)

/-- C6 (amended): for every URL, parser, content-type header and
mimetypes table, the URL path's extension (os.path.splitext, embedded as
splitextExt) is used whenever it is present and at most 4 characters
long after the dot (the source compares len(ext) <= 5 with ext still
carrying its leading dot, so any dotted extension of length at most 5 is
stripped of its dots and returned regardless of content-type — in
particular a URL ending in .png yields png); whenever the path has no
usable extension, the content-type before any ";" parameter is mapped
through the mimetypes table (image/webp yields webp); and when that
table has no entry the result is jpg. -/
theorem c6_extension_inference (guessExt : String → Option String)
    (parse : String → UrlParts) (url ctype : String) :
    (∀ e : List Char, splitextExt (parse url).path.data = e → e ≠ [] → e.length ≤ 5 →
      get_extension_from_url_or_content guessExt parse url ctype
        = String.mk (lstripDots e)) ∧
    (splitextExt (parse url).path.data = []
        ∨ 5 < (splitextExt (parse url).path.data).length →
      ∀ g : String, guessExt (String.mk (ctype.data.takeWhile (fun c => c != ';'))) = some g →
      get_extension_from_url_or_content guessExt parse url ctype
        = String.mk (lstripDots g.data)) ∧
    (splitextExt (parse url).path.data = []
        ∨ 5 < (splitextExt (parse url).path.data).length →
      guessExt (String.mk (ctype.data.takeWhile (fun c => c != ';'))) = none →
      get_extension_from_url_or_content guessExt parse url ctype = "jpg") ∧
    (∀ (g2 : String → Option String) (ct : String),
      get_extension_from_url_or_content g2 (fun _ => ⟨"host", "/img/photo.png"⟩) "u" ct
        = "png") := by
  refine ⟨?_, ?_, ?_, fun g2 ct => rfl⟩
  · intro e he hne hlen
    simp only [get_extension_from_url_or_content]
    rw [he, if_pos ⟨hne, hlen⟩]
  · intro hcase g hg
    have hneg : ¬(splitextExt (parse url).path.data ≠ []
        ∧ (splitextExt (parse url).path.data).length ≤ 5) := by
      rcases hcase with h | h
      · exact fun hc => hc.1 h
      · exact fun hc => by omega
    simp only [get_extension_from_url_or_content]
    rw [if_neg hneg, hg]
  · intro hcase hg
    have hneg : ¬(splitextExt (parse url).path.data ≠ []
        ∧ (splitextExt (parse url).path.data).length ≤ 5) := by
      rcases hcase with h | h
      · exact fun hc => hc.1 h
      · exact fun hc => by omega
    simp only [get_extension_from_url_or_content]
    rw [if_neg hneg, hg]

theorem c6_extension_inference_witness :
    get_extension_from_url_or_content (fun c => if c = "image/webp" then some ".webp" else none)
      (fun _ => ⟨"host", "/plain"⟩) "u" "image/webp" = "webp" :=
  (c6_extension_inference (fun c => if c = "image/webp" then some ".webp" else none)
    (fun _ => ⟨"host", "/plain"⟩) "u" "image/webp").2.1 (Or.inl (by decide))
    ".webp" (by decide)

/-- C6 counterexample: a URL path extension of exactly 5 characters
after the dot (".bcdef", 6 characters with the dot) is rejected by the
len(ext) <= 5 test, so the content-type mapping wins, contradicting the
claim that any extension of at most 5 characters after the dot is used. -/
theorem c6_counterexample :
    get_extension_from_url_or_content (fun c => if c = "image/webp" then some ".webp" else none)
      (fun _ => ⟨"host", "/a.bcdef"⟩) "u" "image/webp" = "webp" ∧
    ("webp" : String) ≠ "bcdef" := by
  constructor
  · decide
  · decide

/-- C10: calling download_images with an empty search_terms list and a
positive target raises ZeroDivisionError (the keyword selection at line
96 computes term_index % len(search_terms)) on the first iteration,
before any search or download is attempted. -/
theorem c10_empty_terms_error (md5 : List Nat → String) (guessExt : String → Option String)
    (parse : String → UrlParts) (iterOrd : List String → List String)
    (searchO : Nat → String → List SearchAttempt) (fetchO : Nat → Nat → List AttemptEvent)
    (save_name : String) (num_images : Nat) (save_folder : String) (batch_size fuel : Nat)
    (hnum : 0 < num_images) (hfuel : 0 < fuel) :
    download_images md5 guessExt parse iterOrd searchO fetchO [] save_name num_images
      save_folder batch_size fuel = RunResult.err "ZeroDivisionError" := by
  cases fuel with
  | zero => omega
  | succ f =>
    simp only [download_images, run]
    rw [if_pos hnum]
    simp [roundStep]

theorem c10_empty_terms_error_witness :
    download_images (fun _ => "") (fun _ => none) (fun _ => ⟨"", ""⟩) (fun s => s)
      (fun _ _ => []) (fun _ _ => []) [] "n" 1 "d" 1 1 = RunResult.err "ZeroDivisionError" :=
  c10_empty_terms_error (fun _ => "") (fun _ => none) (fun _ => ⟨"", ""⟩) (fun s => s)
    (fun _ _ => []) (fun _ _ => []) "n" 1 "d" 1 1 (by omega) (by omega)

theorem subset_insertSet (x : String) (s : List String) : s ⊆ insertSet x s := by
  intro a ha
  unfold insertSet
  split
  · exact ha
  · exact List.mem_append_left _ ha

theorem download_image_blocked (md5 : List Nat → String) (guessExt : String → Option String)
    (parse : String → UrlParts) (url folder person : String) (attempts : List AttemptEvent)
    (st : FetchState) (h : (parse url).netloc ∈ st.bad_domains) :
    download_image md5 guessExt parse url folder person attempts st = (none, st, 0) := by
  simp [download_image, h]

theorem download_image_success (md5 : List Nat → String) (guessExt : String → Option String)
    (parse : String → UrlParts) (url folder person ct : String) (body : List Nat)
    (st : FetchState) (hb : (parse url).netloc ∉ st.bad_domains)
    (ha : acceptedResp 200 ct = true) (hfresh : md5 body ∉ st.seen_hashes) :
    download_image md5 guessExt parse url folder person [AttemptEvent.resp 200 ct body true] st =
      (some (mkFilePath folder person (md5 body)
          (get_extension_from_url_or_content guessExt parse url ct)),
        ⟨st.seen_hashes ++ [md5 body], st.bad_domains,
          st.files ++ [mkFilePath folder person (md5 body)
            (get_extension_from_url_or_content guessExt parse url ct)]⟩, 1) := by
  simp [download_image, hb, downloadGo, ha, hfresh]

theorem download_image_dup (md5 : List Nat → String) (guessExt : String → Option String)
    (parse : String → UrlParts) (url folder person ct : String) (body : List Nat) (w : Bool)
    (rest : List AttemptEvent) (st : FetchState) (hb : (parse url).netloc ∉ st.bad_domains)
    (ha : acceptedResp 200 ct = true) (hdup : md5 body ∈ st.seen_hashes) :
    download_image md5 guessExt parse url folder person
      (AttemptEvent.resp 200 ct body w :: rest) st = (none, st, 1) := by
  simp [download_image, hb, downloadGo, ha, hdup]

theorem download_image_none_of_dup (md5 : List Nat → String) (guessExt : String → Option String)
    (parse : String → UrlParts) (url folder person ct : String) (body : List Nat) (w : Bool)
    (rest : List AttemptEvent) (st : FetchState)
    (ha : acceptedResp 200 ct = true) (hdup : md5 body ∈ st.seen_hashes) :
    (download_image md5 guessExt parse url folder person
        (AttemptEvent.resp 200 ct body w :: rest) st).1 = none ∧
    (download_image md5 guessExt parse url folder person
        (AttemptEvent.resp 200 ct body w :: rest) st).2.1 = st := by
  by_cases hb : (parse url).netloc ∈ st.bad_domains
  · rw [download_image_blocked md5 guessExt parse url folder person _ st hb]
    exact ⟨rfl, rfl⟩
  · rw [download_image_dup md5 guessExt parse url folder person ct body w rest st hb ha hdup]
    exact ⟨rfl, rfl⟩

/-- C1: with a live hash set, feeding the fetcher two payloads of equal
digest (from any two URLs) persists only the first: the first call saves
a file and registers the digest, the second call returns None and leaves
the state — in particular the persisted files — unchanged, because the
check-and-insert of lines 45-48 precedes the write of lines 50-53. -/
theorem c1_dedup_two_calls (md5 : List Nat → String) (guessExt : String → Option String)
    (parse : String → UrlParts) (u1 u2 folder person ct1 ct2 : String) (b1 b2 : List Nat)
    (st : FetchState)
    (hhost : (parse u1).netloc ∉ st.bad_domains)
    (hfresh : md5 b1 ∉ st.seen_hashes)
    (ha1 : acceptedResp 200 ct1 = true) (ha2 : acceptedResp 200 ct2 = true)
    (hdig : md5 b2 = md5 b1) :
    ∃ p st1,
      download_image md5 guessExt parse u1 folder person
        [AttemptEvent.resp 200 ct1 b1 true] st = (some p, st1, 1) ∧
      st1.files = st.files ++ [p] ∧
      st1.seen_hashes = st.seen_hashes ++ [md5 b1] ∧
      (download_image md5 guessExt parse u2 folder person
          [AttemptEvent.resp 200 ct2 b2 true] st1).1 = none ∧
      (download_image md5 guessExt parse u2 folder person
          [AttemptEvent.resp 200 ct2 b2 true] st1).2.1 = st1 := by
  refine ⟨mkFilePath folder person (md5 b1)
      (get_extension_from_url_or_content guessExt parse u1 ct1),
    ⟨st.seen_hashes ++ [md5 b1], st.bad_domains,
      st.files ++ [mkFilePath folder person (md5 b1)
        (get_extension_from_url_or_content guessExt parse u1 ct1)]⟩,
    download_image_success md5 guessExt parse u1 folder person ct1 b1 st hhost ha1 hfresh,
    rfl, rfl, ?_, ?_⟩
  · exact (download_image_none_of_dup md5 guessExt parse u2 folder person ct2 b2 true [] _
      ha2 (by rw [hdig]; exact List.mem_append_right _ (List.mem_singleton.2 rfl))).1
  · exact (download_image_none_of_dup md5 guessExt parse u2 folder person ct2 b2 true [] _
      ha2 (by rw [hdig]; exact List.mem_append_right _ (List.mem_singleton.2 rfl))).2

theorem c1_dedup_two_calls_witness :
    ∃ p st1,
      download_image (fun l => if l = [0] then "h" else "g") (fun _ => none)
        (fun _ => ⟨"d", "/p.png"⟩) "u1" "f" "n"
        [AttemptEvent.resp 200 "image/png" [0] true] ⟨[], [], []⟩ = (some p, st1, 1) ∧
      st1.files = [] ++ [p] ∧
      st1.seen_hashes = [] ++ [(fun l : List Nat => if l = [0] then "h" else "g") [0]] ∧
      (download_image (fun l => if l = [0] then "h" else "g") (fun _ => none)
          (fun _ => ⟨"d", "/p.png"⟩) "u2" "f" "n"
          [AttemptEvent.resp 200 "image/png" [0] true] st1).1 = none ∧
      (download_image (fun l => if l = [0] then "h" else "g") (fun _ => none)
          (fun _ => ⟨"d", "/p.png"⟩) "u2" "f" "n"
          [AttemptEvent.resp 200 "image/png" [0] true] st1).2.1 = st1 :=
  c1_dedup_two_calls (fun l => if l = [0] then "h" else "g") (fun _ => none)
    (fun _ => ⟨"d", "/p.png"⟩) "u1" "u2" "f" "n" "image/png" "image/png" [0] [0]
    ⟨[], [], []⟩ (by decide) (by decide) (by decide) (by decide) rfl

/-- C9: download_image registers a payload's hash before attempting the
file write, so a failed write leaves the hash registered with no file;
an identical payload seen later — by a retry attempt of the same call or
by another call — is rejected as a duplicate and is never persisted, and
one call can insert two hashes when its attempts observe different
payloads. -/
theorem c9_hash_insert_not_atomic (md5 : List Nat → String) (guessExt : String → Option String)
    (parse : String → UrlParts) (u1 u2 folder person ct1 ct2 ct3 : String)
    (b1 b2 b3 : List Nat) (w : Bool) (st : FetchState)
    (hhost : (parse u1).netloc ∉ st.bad_domains)
    (hf1 : md5 b1 ∉ st.seen_hashes) (hf2 : md5 b2 ∉ st.seen_hashes)
    (hne : md5 b1 ≠ md5 b2)
    (ha1 : acceptedResp 200 ct1 = true) (ha2 : acceptedResp 200 ct2 = true)
    (ha3 : acceptedResp 200 ct3 = true)
    (heq : md5 b3 = md5 b1) :
    ∃ p st1,
      download_image md5 guessExt parse u1 folder person
        [AttemptEvent.resp 200 ct1 b1 false, AttemptEvent.resp 200 ct2 b2 true] st
        = (some p, st1, 2) ∧
      st1.seen_hashes = st.seen_hashes ++ [md5 b1, md5 b2] ∧
      st1.files = st.files ++ [p] ∧
      p = mkFilePath folder person (md5 b2)
        (get_extension_from_url_or_content guessExt parse u1 ct2) ∧
      (download_image md5 guessExt parse u2 folder person
          [AttemptEvent.resp 200 ct3 b3 w] st1).1 = none ∧
      (download_image md5 guessExt parse u2 folder person
          [AttemptEvent.resp 200 ct3 b3 w] st1).2.1 = st1 ∧
      (download_image md5 guessExt parse u1 folder person
          [AttemptEvent.resp 200 ct1 b1 false, AttemptEvent.resp 200 ct3 b3 true] st).1
        = none ∧
      (download_image md5 guessExt parse u1 folder person
          [AttemptEvent.resp 200 ct1 b1 false, AttemptEvent.resp 200 ct3 b3 true] st).2.1.files
        = st.files ∧
      (download_image md5 guessExt parse u1 folder person
          [AttemptEvent.resp 200 ct1 b1 false, AttemptEvent.resp 200 ct3 b3 true] st).2.1.seen_hashes
        = st.seen_hashes ++ [md5 b1] := by
  have hne2 : md5 b2 ∉ st.seen_hashes ++ [md5 b1] := by
    intro hmem
    rcases List.mem_append.1 hmem with h | h
    · exact hf2 h
    · exact hne (List.mem_singleton.1 h).symm
  have hdup3 : md5 b3 ∈ st.seen_hashes ++ [md5 b1] := by
    rw [heq]
    exact List.mem_append_right _ (List.mem_singleton.2 rfl)
  refine ⟨mkFilePath folder person (md5 b2)
      (get_extension_from_url_or_content guessExt parse u1 ct2),
    ⟨(st.seen_hashes ++ [md5 b1]) ++ [md5 b2], st.bad_domains,
      st.files ++ [mkFilePath folder person (md5 b2)
        (get_extension_from_url_or_content guessExt parse u1 ct2)]⟩,
    ?_, by simp, rfl, rfl, ?_, ?_, ?_, ?_, ?_⟩
  · simp [download_image, hhost, downloadGo, ha1, ha2, hf1, hne2]
  · refine (download_image_none_of_dup md5 guessExt parse u2 folder person ct3 b3 w [] _
      ha3 ?_).1
    rw [heq]
    exact List.mem_append_left _ (List.mem_append_right _ (List.mem_singleton.2 rfl))
  · refine (download_image_none_of_dup md5 guessExt parse u2 folder person ct3 b3 w [] _
      ha3 ?_).2
    rw [heq]
    exact List.mem_append_left _ (List.mem_append_right _ (List.mem_singleton.2 rfl))
  · simp [download_image, hhost, downloadGo, ha1, ha3, hf1, hdup3]
  · simp [download_image, hhost, downloadGo, ha1, ha3, hf1, hdup3]
  · simp [download_image, hhost, downloadGo, ha1, ha3, hf1, hdup3]

theorem c9_hash_insert_not_atomic_witness :
    ∃ p st1,
      download_image (fun l => if l = [0] then "h0" else if l = [1] then "h1" else "h2")
        (fun _ => none) (fun _ => ⟨"d", "/p.png"⟩) "u1" "f" "n"
        [AttemptEvent.resp 200 "image/png" [0] false, AttemptEvent.resp 200 "image/png" [1] true]
        ⟨[], [], []⟩ = (some p, st1, 2) ∧
      st1.seen_hashes = [] ++
        [(fun l : List Nat => if l = [0] then "h0" else if l = [1] then "h1" else "h2") [0],
          (fun l : List Nat => if l = [0] then "h0" else if l = [1] then "h1" else "h2") [1]] ∧
      st1.files = [] ++ [p] ∧
      p = mkFilePath "f" "n"
        ((fun l : List Nat => if l = [0] then "h0" else if l = [1] then "h1" else "h2") [1])
        (get_extension_from_url_or_content (fun _ => none) (fun _ => ⟨"d", "/p.png"⟩)
          "u1" "image/png") ∧
      (download_image (fun l => if l = [0] then "h0" else if l = [1] then "h1" else "h2")
          (fun _ => none) (fun _ => ⟨"d", "/p.png"⟩) "u2" "f" "n"
          [AttemptEvent.resp 200 "image/png" [0] true] st1).1 = none ∧
      (download_image (fun l => if l = [0] then "h0" else if l = [1] then "h1" else "h2")
          (fun _ => none) (fun _ => ⟨"d", "/p.png"⟩) "u2" "f" "n"
          [AttemptEvent.resp 200 "image/png" [0] true] st1).2.1 = st1 ∧
      (download_image (fun l => if l = [0] then "h0" else if l = [1] then "h1" else "h2")
          (fun _ => none) (fun _ => ⟨"d", "/p.png"⟩) "u1" "f" "n"
          [AttemptEvent.resp 200 "image/png" [0] false, AttemptEvent.resp 200 "image/png" [0] true]
          ⟨[], [], []⟩).1 = none ∧
      (download_image (fun l => if l = [0] then "h0" else if l = [1] then "h1" else "h2")
          (fun _ => none) (fun _ => ⟨"d", "/p.png"⟩) "u1" "f" "n"
          [AttemptEvent.resp 200 "image/png" [0] false, AttemptEvent.resp 200 "image/png" [0] true]
          ⟨[], [], []⟩).2.1.files = [] ∧
      (download_image (fun l => if l = [0] then "h0" else if l = [1] then "h1" else "h2")
          (fun _ => none) (fun _ => ⟨"d", "/p.png"⟩) "u1" "f" "n"
          [AttemptEvent.resp 200 "image/png" [0] false, AttemptEvent.resp 200 "image/png" [0] true]
          ⟨[], [], []⟩).2.1.seen_hashes = [] ++
        [(fun l : List Nat => if l = [0] then "h0" else if l = [1] then "h1" else "h2") [0]] :=
  c9_hash_insert_not_atomic
    (fun l => if l = [0] then "h0" else if l = [1] then "h1" else "h2")
    (fun _ => none) (fun _ => ⟨"d", "/p.png"⟩) "u1" "u2" "f" "n"
    "image/png" "image/png" "image/png" [0] [1] [0] true ⟨[], [], []⟩
    (by decide) (by decide) (by decide) (by decide) (by decide) (by decide) (by decide) rfl

/-- C7 (amended): after a round in which a seen set exceeds 50000
entries, the truncation step reduces it to exactly 25000 entries — the
last 25000 entries of the iteration order that list(s) produced, which
need not be the most recently inserted ones, since a Python set does not
iterate in insertion order. -/
theorem c7_truncation_bound {α : Type} (iterOrd : List α → List α) (s : List α)
    (hperm : (iterOrd s).Perm s) (hnd : s.Nodup) (hlen : 50000 < s.length) :
    (truncateSet iterOrd s).length = 25000 ∧ (truncateSet iterOrd s).Nodup ∧
      truncateSet iterOrd s <:+ iterOrd s := by
  have hlen2 : (iterOrd s).length = s.length := hperm.length_eq
  unfold truncateSet
  rw [if_pos hlen]
  refine ⟨?_, ?_, ?_⟩
  · rw [List.length_drop, hlen2]
    omega
  · exact List.Nodup.sublist (List.drop_sublist _ _) (hperm.nodup_iff.2 hnd)
  · exact List.drop_suffix _ _

theorem c7_truncation_bound_witness :
    (truncateSet (fun l : List Nat => l) (List.range 50001)).length = 25000 :=
  (c7_truncation_bound (fun l => l) (List.range 50001) (List.Perm.refl _)
    (List.nodup_range 50001) (by rw [List.length_range]; omega)).1

/-- C7 counterexample: with the iteration order list(s) observing the
set in reverse insertion order (a legitimate order, since Python sets do
not iterate in insertion order), truncating a 50001-entry set keeps
entry 0 — the oldest — and drops recent entries, so the survivors are
not the 25000 most recently inserted. -/
theorem c7_counterexample :
    0 ∈ truncateSet List.reverse (List.range 50001) ∧
    0 ∉ mostRecentlyInserted 25000 (List.range 50001) ∧
    truncateSet List.reverse (List.range 50001)
      ≠ mostRecentlyInserted 25000 (List.range 50001) := by
  have h1 : truncateSet List.reverse (List.range 50001) = (List.range 25000).reverse := by
    unfold truncateSet
    rw [if_pos (by rw [List.length_range]; omega)]
    rw [List.length_reverse, List.length_range]
    rw [show (50001 - 25000 : Nat) = 25000 + 1 by norm_num]
    rw [← List.drop_drop]
    have h2 : (List.range 50001).reverse.drop 25000 = (List.range 25001).reverse := by
      conv_lhs => rw [show (50001 : Nat) = 25001 + 25000 from by norm_num, List.range_add]
      rw [List.reverse_append]
      exact List.drop_left' (by rw [List.length_reverse, List.length_map, List.length_range])
    rw [h2]
    conv_lhs => rw [show (25001 : Nat) = 25000 + 1 from by norm_num, List.range_succ]
    rw [List.reverse_append]
    simp
  have h3 : mostRecentlyInserted 25000 (List.range 50001)
      = (List.range 25000).map (fun x => 25001 + x) := by
    unfold mostRecentlyInserted
    rw [List.length_range]
    rw [show (50001 - 25000 : Nat) = 25001 by norm_num]
    conv_lhs => rw [show (50001 : Nat) = 25001 + 25000 from by norm_num, List.range_add]
    exact List.drop_left' (List.length_range 25001)
  refine ⟨?_, ?_, ?_⟩
  · rw [h1, List.mem_reverse]
    exact List.mem_range.2 (by omega)
  · rw [h3]
    intro hmem
    rcases List.mem_map.1 hmem with ⟨x, _, hx⟩
    omega
  · rw [h1, h3]
    intro heq
    have hm : (0 : Nat) ∈ (List.range 25000).map (fun x => 25001 + x) := by
      rw [← heq, List.mem_reverse]
      exact List.mem_range.2 (by omega)
    rcases List.mem_map.1 hm with ⟨x, _, hx⟩
    omega

theorem downloadGo_bad_mono (md5 : List Nat → String) (guessExt : String → Option String)
    (parse : String → UrlParts) (url folder person : String) :
    ∀ (attempts : List AttemptEvent) (st : FetchState) (reqs : Nat),
    st.bad_domains ⊆
      (downloadGo md5 guessExt parse url folder person attempts st reqs).2.1.bad_domains := by
  intro attempts
  induction attempts with
  | nil =>
    intro st reqs
    exact subset_insertSet _ _
  | cons ev rest ih =>
    intro st reqs
    cases ev with
    | netFail => exact ih st (reqs + 1)
    | resp status ctype body writeOk =>
      simp only [downloadGo]
      by_cases ha : acceptedResp status ctype = true
      · rw [if_pos ha]
        by_cases hd : md5 body ∈ st.seen_hashes
        · rw [if_pos hd]
          exact fun a h => h
        · rw [if_neg hd]
          cases writeOk
          · rw [if_neg Bool.false_ne_true]
            exact ih ⟨st.seen_hashes ++ [md5 body], st.bad_domains, st.files⟩ (reqs + 1)
          · rw [if_pos rfl]
            exact fun a h => h
      · rw [if_neg ha]
        exact ih _ _

theorem downloadGo_bad_eq (md5 : List Nat → String) (guessExt : String → Option String)
    (parse : String → UrlParts) (url folder person : String) :
    ∀ (attempts : List AttemptEvent) (st : FetchState) (reqs : Nat),
    (downloadGo md5 guessExt parse url folder person attempts st reqs).2.1.bad_domains =
      (if exhaustsAttempts md5 st.seen_hashes attempts then
        insertSet (parse url).netloc st.bad_domains else st.bad_domains) := by
  intro attempts
  induction attempts with
  | nil =>
    intro st reqs
    rfl
  | cons ev rest ih =>
    intro st reqs
    cases ev with
    | netFail => exact ih st (reqs + 1)
    | resp status ctype body writeOk =>
      by_cases ha : acceptedResp status ctype = true
      · by_cases hd : md5 body ∈ st.seen_hashes
        · simp [downloadGo, exhaustsAttempts, ha, hd]
        · cases writeOk
          · have h1 := ih ⟨st.seen_hashes ++ [md5 body], st.bad_domains, st.files⟩ (reqs + 1)
            simp only [downloadGo, exhaustsAttempts, ha, hd]
            simp only [if_true, if_false, Bool.false_ne_true, ite_true, ite_false,
              eq_self_iff_true, not_false_iff, if_neg Bool.false_ne_true]
            exact h1
          · simp [downloadGo, exhaustsAttempts, ha, hd]
      · have h1 := ih st (reqs + 1)
        simp only [downloadGo, exhaustsAttempts, ha, if_false, ite_false]
        exact h1

theorem download_image_bad_subset (md5 : List Nat → String) (guessExt : String → Option String)
    (parse : String → UrlParts) (url folder person : String) (attempts : List AttemptEvent)
    (st : FetchState) :
    st.bad_domains ⊆
      (download_image md5 guessExt parse url folder person attempts st).2.1.bad_domains := by
  unfold download_image
  by_cases hb : (parse url).netloc ∈ st.bad_domains
  · rw [if_pos hb]
    exact fun a h => h
  · rw [if_neg hb]
    exact downloadGo_bad_mono md5 guessExt parse url folder person attempts st 0

theorem dispatchGo_bad_mono (C : ScrapeCtx) (iter : Nat) :
    ∀ (urls : List String) (j : Nat) (st : OrchState),
    st.fs.bad_domains ⊆ (dispatchGo C iter urls j st).fs.bad_domains := by
  intro urls
  induction urls with
  | nil =>
    intro j st
    exact fun a h => h
  | cons url rest ih =>
    intro j st
    refine List.Subset.trans ?_ (ih (j + 1) _)
    exact download_image_bad_subset C.md5 C.guessExt C.parse url C.folder C.person
      (C.fetchO iter j) st.fs

theorem dispatchGo_count_le (C : ScrapeCtx) (iter : Nat) :
    ∀ (urls : List String) (j : Nat) (st : OrchState), st.downloaded_count ≤ C.num →
    (dispatchGo C iter urls j st).downloaded_count ≤ C.num := by
  intro urls
  induction urls with
  | nil => intro j st h; exact h
  | cons url rest ih =>
    intro j st h
    refine ih (j + 1) _ ?_
    show (if _ ∧ st.downloaded_count < C.num then st.downloaded_count + 1
      else st.downloaded_count) ≤ C.num
    split
    · next hcond => omega
    · exact h

theorem roundStep_result (C : ScrapeCtx) (iter : Nat) (st : OrchState)
    (hterms : C.terms ≠ []) (hcnt : st.downloaded_count ≤ C.num) :
    (∃ st2, roundStep C iter st = Sum.inl (RunResult.done st2) ∧
      st2.downloaded_count ≤ C.num) ∨
    (∃ st2, roundStep C iter st = Sum.inr st2 ∧ st2.downloaded_count ≤ C.num) := by
  have h0 : ¬ C.terms.length = 0 := fun h => hterms (List.length_eq_zero.1 h)
  unfold roundStep
  rw [if_neg h0]
  by_cases h1 : (searchPhase C iter st).1 = []
  · rw [if_pos h1]
    by_cases h2 : C.terms.length ≤ st.term_index + 1
    · rw [if_pos h2]
      exact Or.inl ⟨_, rfl, hcnt⟩
    · rw [if_neg h2]
      exact Or.inr ⟨_, rfl, hcnt⟩
  · rw [if_neg h1]
    refine Or.inr ⟨_, rfl, ?_⟩
    exact dispatchGo_count_le C iter _ 0 _ hcnt

theorem roundStep_bad (C : ScrapeCtx) (iter : Nat) (st : OrchState) (st2 : OrchState)
    (h : roundStep C iter st = Sum.inr st2 ∨ roundStep C iter st = Sum.inl (RunResult.done st2)) :
    st.fs.bad_domains ⊆ st2.fs.bad_domains := by
  unfold roundStep at h
  by_cases h0 : C.terms.length = 0
  · rw [if_pos h0] at h
    rcases h with h | h <;> simp at h
  · rw [if_neg h0] at h
    by_cases h1 : (searchPhase C iter st).1 = []
    · rw [if_pos h1] at h
      by_cases h2 : C.terms.length ≤ st.term_index + 1
      · rw [if_pos h2] at h
        rcases h with h | h
        · simp at h
        · injection h with h
          injection h with h
          subst h
          exact fun a ha => ha
      · rw [if_neg h2] at h
        rcases h with h | h
        · injection h with h
          subst h
          exact fun a ha => ha
        · simp at h
    · rw [if_neg h1] at h
      rcases h with h | h
      · injection h with h
        subst h
        exact dispatchGo_bad_mono C iter (searchPhase C iter st).1 0
          ⟨st.fs, (searchPhase C iter st).2, st.downloaded_count, st.batch_number,
            st.term_index⟩
      · simp at h

theorem roundStep_no_fuelOut (C : ScrapeCtx) (iter : Nat) (st : OrchState) (st2 : OrchState) :
    roundStep C iter st ≠ Sum.inl (RunResult.fuelOut st2) := by
  intro h
  unfold roundStep at h
  by_cases h0 : C.terms.length = 0
  · rw [if_pos h0] at h
    simp at h
  · rw [if_neg h0] at h
    by_cases h1 : (searchPhase C iter st).1 = []
    · rw [if_pos h1] at h
      by_cases h2 : C.terms.length ≤ st.term_index + 1
      · rw [if_pos h2] at h
        simp at h
      · rw [if_neg h2] at h
        simp at h
    · rw [if_neg h1] at h
      simp at h

theorem run_succ_eq (C : ScrapeCtx) (iter fuel : Nat) (st : OrchState) :
    run C iter (fuel + 1) st =
      (if st.downloaded_count < C.num then
        (match roundStep C iter st with
          | Sum.inl r => r
          | Sum.inr st2 => run C (iter + 1) fuel st2)
      else RunResult.done st) := rfl

theorem run_no_err (C : ScrapeCtx) (hterms : C.terms ≠ []) :
    ∀ (fuel iter : Nat) (st : OrchState), st.downloaded_count ≤ C.num →
    (∃ st2, run C iter fuel st = RunResult.done st2 ∧ st2.downloaded_count ≤ C.num) ∨
    (∃ st2, run C iter fuel st = RunResult.fuelOut st2) := by
  intro fuel
  induction fuel with
  | zero =>
    intro iter st h
    exact Or.inr ⟨st, rfl⟩
  | succ f ih =>
    intro iter st h
    rw [run_succ_eq]
    by_cases hc : st.downloaded_count < C.num
    · rw [if_pos hc]
      rcases roundStep_result C iter st hterms h with ⟨st2, heq, hle⟩ | ⟨st2, heq, hle⟩
      · rw [heq]
        exact Or.inl ⟨st2, rfl, hle⟩
      · rw [heq]
        exact ih (iter + 1) st2 hle
    · rw [if_neg hc]
      exact Or.inl ⟨st, rfl, h⟩

theorem badMonotone_of_subset (st st2 : OrchState)
    (h : st.fs.bad_domains ⊆ st2.fs.bad_domains) :
    ∀ r, badMonotone st2 r → badMonotone st r := by
  intro r
  cases r with
  | done st3 => exact fun h2 => List.Subset.trans h h2
  | fuelOut st3 => exact fun h2 => List.Subset.trans h h2
  | err m => exact fun _ => trivial

theorem run_bad_mono (C : ScrapeCtx) :
    ∀ (fuel iter : Nat) (st : OrchState), badMonotone st (run C iter fuel st) := by
  intro fuel
  induction fuel with
  | zero =>
    intro iter st
    exact fun a h => h
  | succ f ih =>
    intro iter st
    rw [run_succ_eq]
    by_cases hc : st.downloaded_count < C.num
    · rw [if_pos hc]
      cases hr : roundStep C iter st with
      | inl r =>
        cases r with
        | done st2 => exact roundStep_bad C iter st st2 (Or.inr hr)
        | fuelOut st2 => exact absurd hr (roundStep_no_fuelOut C iter st st2)
        | err m => exact trivial
      | inr st2 =>
        exact badMonotone_of_subset st st2 (roundStep_bad C iter st st2 (Or.inl hr)) _
          (ih (iter + 1) st2)
    · rw [if_neg hc]
      exact fun a h => h

/-- C2: a host already in bad_domains makes download_image return None
with zero network requests and no state change; bad_domains only ever
grows across download_image calls, and the host of a call is inserted
exactly when the call exhausts its retry bound (reaches line 58); at the
orchestrator level no host is ever removed for the remainder of a run. -/
theorem c2_blocklist_monotone (md5 : List Nat → String) (guessExt : String → Option String)
    (parse : String → UrlParts) (folder person : String) :
    (∀ (url : String) (attempts : List AttemptEvent) (st : FetchState),
      (parse url).netloc ∈ st.bad_domains →
      download_image md5 guessExt parse url folder person attempts st = (none, st, 0)) ∧
    (∀ (url : String) (attempts : List AttemptEvent) (st : FetchState),
      st.bad_domains ⊆
        (download_image md5 guessExt parse url folder person attempts st).2.1.bad_domains) ∧
    (∀ (url : String) (attempts : List AttemptEvent) (st : FetchState),
      (parse url).netloc ∉ st.bad_domains →
      (download_image md5 guessExt parse url folder person attempts st).2.1.bad_domains =
        (if exhaustsAttempts md5 st.seen_hashes attempts then
          insertSet (parse url).netloc st.bad_domains else st.bad_domains)) ∧
    (∀ (C : ScrapeCtx) (fuel iter : Nat) (st : OrchState),
      badMonotone st (run C iter fuel st)) := by
  refine ⟨?_, ?_, ?_, ?_⟩
  · intro url attempts st h
    exact download_image_blocked md5 guessExt parse url folder person attempts st h
  · intro url attempts st
    exact download_image_bad_subset md5 guessExt parse url folder person attempts st
  · intro url attempts st h
    unfold download_image
    rw [if_neg h]
    exact downloadGo_bad_eq md5 guessExt parse url folder person attempts st 0
  · intro C fuel iter st
    exact run_bad_mono C fuel iter st

theorem c2_blocklist_monotone_witness :
    download_image (fun _ => "h") (fun _ => none) (fun _ => ⟨"bad.example", "/a"⟩)
      "u" "f" "n" [AttemptEvent.netFail] ⟨[], ["bad.example"], []⟩
      = (none, ⟨[], ["bad.example"], []⟩, 0) :=
  (c2_blocklist_monotone (fun _ => "h") (fun _ => none)
    (fun _ => ⟨"bad.example", "/a"⟩) "f" "n").1 "u" [AttemptEvent.netFail]
    ⟨[], ["bad.example"], []⟩ (by decide)

/-- C4: with a non-empty search_terms list, download_images never
raises, whatever the network does: every run either completes normally
with downloaded_count ≤ num_images, or is still looping when the fuel
bound is reached; the err outcome is unreachable. -/
theorem c4_graceful_degradation (md5 : List Nat → String) (guessExt : String → Option String)
    (parse : String → UrlParts) (iterOrd : List String → List String)
    (searchO : Nat → String → List SearchAttempt) (fetchO : Nat → Nat → List AttemptEvent)
    (search_terms : List String) (save_name : String) (num_images : Nat)
    (save_folder : String) (batch_size fuel : Nat)
    (hterms : search_terms ≠ []) :
    (∃ st, download_images md5 guessExt parse iterOrd searchO fetchO search_terms save_name
        num_images save_folder batch_size fuel = RunResult.done st ∧
      st.downloaded_count ≤ num_images) ∨
    (∃ st, download_images md5 guessExt parse iterOrd searchO fetchO search_terms save_name
        num_images save_folder batch_size fuel = RunResult.fuelOut st) := by
  exact run_no_err _ hterms fuel 0 ⟨⟨[], [], []⟩, [], 0, 0, 0⟩ (Nat.zero_le _)

theorem c4_graceful_degradation_witness :
    (∃ st, download_images (fun _ => "h") (fun _ => none) (fun _ => ⟨"d", "/a"⟩) (fun s => s)
        (fun _ _ => []) (fun _ _ => []) ["k"] "n" 2 "d" 1 1 = RunResult.done st ∧
      st.downloaded_count ≤ 2) ∨
    (∃ st, download_images (fun _ => "h") (fun _ => none) (fun _ => ⟨"d", "/a"⟩) (fun s => s)
        (fun _ _ => []) (fun _ _ => []) ["k"] "n" 2 "d" 1 1 = RunResult.fuelOut st) :=
  c4_graceful_degradation (fun _ => "h") (fun _ => none) (fun _ => ⟨"d", "/a"⟩) (fun s => s)
    (fun _ _ => []) (fun _ _ => []) ["k"] "n" 2 "d" 1 1 (by decide)

theorem c8_search_empty (C : ScrapeCtx) (iter : Nat) (st : OrchState)
    (hS : ∀ i kw, C.searchO i kw = [SearchAttempt.ok []]) :
    searchPhase C iter st = ([], st.seen_urls) := by
  unfold searchPhase
  rw [hS]
  rfl

theorem c8_run_aux (C : ScrapeCtx) (hS : ∀ i kw, C.searchO i kw = [SearchAttempt.ok []])
    (hnum : 0 < C.num) :
    ∀ (d iter ti fuel : Nat) (fs0 : FetchState) (su0 : List String),
    ti + (d + 1) = C.terms.length → d + 1 ≤ fuel →
    run C iter fuel ⟨fs0, su0, 0, 0, ti⟩ =
      RunResult.done ⟨fs0, su0, 0, 0, C.terms.length⟩ := by
  intro d
  induction d with
  | zero =>
    intro iter ti fuel fs0 su0 hlen hfuel
    cases fuel with
    | zero => omega
    | succ f =>
      rw [run_succ_eq, if_pos hnum]
      have hterm0 : ¬ C.terms.length = 0 := by omega
      have hsp := c8_search_empty C iter ⟨fs0, su0, 0, 0, ti⟩ hS
      have hrs : roundStep C iter ⟨fs0, su0, 0, 0, ti⟩ =
          Sum.inl (RunResult.done ⟨fs0, su0, 0, 0, ti + 1⟩) := by
        unfold roundStep
        rw [if_neg hterm0, hsp]
        rw [if_pos rfl]
        rw [if_pos (show C.terms.length ≤ ti + 1 by omega)]
      rw [hrs]
      show RunResult.done ⟨fs0, su0, 0, 0, ti + 1⟩
        = RunResult.done ⟨fs0, su0, 0, 0, C.terms.length⟩
      rw [show ti + 1 = C.terms.length by omega]
  | succ d ih =>
    intro iter ti fuel fs0 su0 hlen hfuel
    cases fuel with
    | zero => omega
    | succ f =>
      rw [run_succ_eq, if_pos hnum]
      have hterm0 : ¬ C.terms.length = 0 := by omega
      have hsp := c8_search_empty C iter ⟨fs0, su0, 0, 0, ti⟩ hS
      have hrs : roundStep C iter ⟨fs0, su0, 0, 0, ti⟩ =
          Sum.inr ⟨fs0, su0, 0, 0, ti + 1⟩ := by
        unfold roundStep
        rw [if_neg hterm0, hsp]
        rw [if_pos rfl]
        rw [if_neg (show ¬ C.terms.length ≤ ti + 1 by omega)]
      rw [hrs]
      show run C (iter + 1) f ⟨fs0, su0, 0, 0, ti + 1⟩ = _
      exact ih (iter + 1) (ti + 1) f fs0 su0 (by omega) (by omega)

/-- C8: when the search backend yields an empty result for every keyword
from the start, download_images terminates without raising after exactly
len(search_terms) keyword advances (term_index ends at the length, no
dispatch round runs, batch_number stays 0) and downloaded_count is 0. -/
theorem c8_exhaustion_termination (md5 : List Nat → String) (guessExt : String → Option String)
    (parse : String → UrlParts) (iterOrd : List String → List String)
    (searchO : Nat → String → List SearchAttempt) (fetchO : Nat → Nat → List AttemptEvent)
    (search_terms : List String) (save_name : String) (num_images : Nat)
    (save_folder : String) (batch_size fuel : Nat)
    (hne : search_terms ≠ []) (hnum : 0 < num_images)
    (hS : ∀ i kw, searchO i kw = [SearchAttempt.ok []])
    (hfuel : search_terms.length ≤ fuel) :
    download_images md5 guessExt parse iterOrd searchO fetchO search_terms save_name
      num_images save_folder batch_size fuel =
      RunResult.done ⟨⟨[], [], []⟩, [], 0, 0, search_terms.length⟩ := by
  have hlen : 0 < search_terms.length := List.length_pos.2 hne
  unfold download_images
  exact c8_run_aux _ hS hnum (search_terms.length - 1) 0 0 fuel ⟨[], [], []⟩ []
    (by show 0 + (search_terms.length - 1 + 1) = search_terms.length; omega)
    (by omega)

theorem c8_exhaustion_termination_witness :
    download_images (fun _ => "h") (fun _ => none) (fun _ => ⟨"d", "/a"⟩) (fun s => s)
      (fun _ _ => [SearchAttempt.ok []]) (fun _ _ => []) ["a", "b"] "n" 5 "d" 3 2
      = RunResult.done ⟨⟨[], [], []⟩, [], 0, 0, 2⟩ :=
  c8_exhaustion_termination (fun _ => "h") (fun _ => none) (fun _ => ⟨"d", "/a"⟩)
    (fun s => s) (fun _ _ => [SearchAttempt.ok []]) (fun _ _ => []) ["a", "b"] "n" 5 "d" 3 2
    (by decide) (by omega) (fun i kw => rfl) (by decide)

theorem truncateSet_subset {α : Type} (iterOrd : List α → List α) (s : List α)
    (h : iterOrd s ⊆ s) : truncateSet iterOrd s ⊆ s := by
  unfold truncateSet
  split
  · exact fun a ha => h (List.drop_subset _ _ ha)
  · exact fun a ha => ha

theorem collect_exact_aux (n : Nat) :
    ∀ (vs seen acc : List String),
    acc.length < n → n ≤ acc.length + vs.length →
    (∀ v ∈ vs, v ∉ seen ∧ v ≠ "") → vs.Nodup →
    collectUrls n (vs.map some) seen acc =
      (acc ++ vs.take (n - acc.length), seen ++ vs.take (n - acc.length)) := by
  intro vs
  induction vs with
  | nil =>
    intro seen acc h1 h2 _ _
    simp only [List.length_nil, Nat.add_zero] at h2
    exact absurd h1 (by omega)
  | cons v vs ih =>
    intro seen acc h1 h2 hfresh hnd
    have hv := hfresh v (List.mem_cons_self v vs)
    simp only [List.map_cons, collectUrls]
    rw [if_pos ⟨hv.2, hv.1⟩]
    by_cases hstop : n ≤ acc.length + 1
    · rw [if_pos hstop]
      have hn1 : n - acc.length = 1 := by omega
      rw [hn1]
      rfl
    · rw [if_neg hstop]
      have hf2 : ∀ w ∈ vs, w ∉ seen ++ [v] ∧ w ≠ "" := by
        intro w hw
        have hws := hfresh w (List.mem_cons_of_mem _ hw)
        refine ⟨?_, hws.2⟩
        intro hc
        rcases List.mem_append.1 hc with hc | hc
        · exact hws.1 hc
        · have hwv : w = v := List.mem_singleton.1 hc
          subst hwv
          exact (List.nodup_cons.1 hnd).1 hw
      have ih2 := ih (seen ++ [v]) (acc ++ [v])
        (by simp only [List.length_append, List.length_singleton]; omega)
        (by
          simp only [List.length_append, List.length_singleton, List.length_cons] at h2 ⊢
          omega)
        hf2 (List.nodup_cons.1 hnd).2
      rw [ih2]
      have hlen2 : n - (acc ++ [v]).length = n - acc.length - 1 := by
        simp only [List.length_append, List.length_singleton]
        omega
      rw [hlen2]
      have ht : (v :: vs).take (n - acc.length) = v :: vs.take (n - acc.length - 1) := by
        have hx : n - acc.length = (n - acc.length - 1) + 1 := by omega
        conv_lhs => rw [hx]
        rw [List.take_succ_cons]
      rw [ht]
      simp [List.append_assoc]

theorem collect_exact (n : Nat) (vs seen : List String)
    (h1 : 1 ≤ n) (h2 : n ≤ vs.length)
    (hfresh : ∀ v ∈ vs, v ∉ seen ∧ v ≠ "") (hnd : vs.Nodup) :
    collectUrls n (vs.map some) seen [] = (vs.take n, seen ++ vs.take n) := by
  have h := collect_exact_aux n vs seen []
    (by simpa using h1) (by simpa using h2) hfresh hnd
  simpa using h

theorem c3_dispatch (C : ScrapeCtx) (u : Nat → Nat → String) (b : Nat → Nat → List Nat)
    (k : Nat)
    (hkR : k < (C.num + C.batch_size - 1) / C.batch_size)
    (hF : ∀ i j, i < (C.num + C.batch_size - 1) / C.batch_size → j < C.batch_size →
      C.fetchO i j = [AttemptEvent.resp 200 "image/jpeg" (b i j) true])
    (hh_inj : ∀ i, i < (C.num + C.batch_size - 1) / C.batch_size → ∀ j, j < C.batch_size →
      ∀ i2, i2 < (C.num + C.batch_size - 1) / C.batch_size → ∀ j2, j2 < C.batch_size →
      C.md5 (b i j) = C.md5 (b i2 j2) → i = i2 ∧ j = j2) :
    ∀ (m j0 : Nat) (st : OrchState), j0 + m ≤ C.batch_size →
    st.fs.bad_domains = [] →
    (∀ h ∈ st.fs.seen_hashes, ∃ i2 j2, i2 < (C.num + C.batch_size - 1) / C.batch_size ∧
      j2 < C.batch_size ∧ h = C.md5 (b i2 j2) ∧ (i2 < k ∨ (i2 = k ∧ j2 < j0))) →
    st.downloaded_count + m ≤ C.num →
    (dispatchGo C k ((List.range' j0 m).map (u k)) j0 st).downloaded_count
        = st.downloaded_count + m ∧
    (dispatchGo C k ((List.range' j0 m).map (u k)) j0 st).fs.bad_domains = [] ∧
    (dispatchGo C k ((List.range' j0 m).map (u k)) j0 st).seen_urls = st.seen_urls ∧
    (dispatchGo C k ((List.range' j0 m).map (u k)) j0 st).batch_number = st.batch_number ∧
    (dispatchGo C k ((List.range' j0 m).map (u k)) j0 st).term_index = st.term_index ∧
    (∀ h ∈ (dispatchGo C k ((List.range' j0 m).map (u k)) j0 st).fs.seen_hashes,
      ∃ i2 j2, i2 < (C.num + C.batch_size - 1) / C.batch_size ∧ j2 < C.batch_size ∧
        h = C.md5 (b i2 j2) ∧ (i2 < k ∨ (i2 = k ∧ j2 < j0 + m))) := by
  intro m
  induction m with
  | zero =>
    intro j0 st hjm hbad hprov hcnt
    refine ⟨?_, hbad, rfl, rfl, rfl, ?_⟩
    · show st.downloaded_count = st.downloaded_count + 0
      omega
    · intro h hh
      obtain ⟨i2, j2, a1, a2, a3, a4⟩ := hprov h hh
      refine ⟨i2, j2, a1, a2, a3, ?_⟩
      rcases a4 with a4 | ⟨a4, a5⟩
      · exact Or.inl a4
      · exact Or.inr ⟨a4, by omega⟩
  | succ m ih =>
    intro j0 st hjm hbad hprov hcnt
    have hj0B : j0 < C.batch_size := by omega
    have hfresh : C.md5 (b k j0) ∉ st.fs.seen_hashes := by
      intro hc
      obtain ⟨i2, j2, a1, a2, a3, a4⟩ := hprov _ hc
      obtain ⟨e1, e2⟩ := hh_inj k hkR j0 hj0B i2 a1 j2 a2 a3
      rcases a4 with a4 | ⟨a4, a5⟩ <;> omega
    have hurl : download_image C.md5 C.guessExt C.parse (u k j0) C.folder C.person
        (C.fetchO k j0) st.fs =
        (some (mkFilePath C.folder C.person (C.md5 (b k j0))
            (get_extension_from_url_or_content C.guessExt C.parse (u k j0) "image/jpeg")),
          ⟨st.fs.seen_hashes ++ [C.md5 (b k j0)], st.fs.bad_domains,
            st.fs.files ++ [mkFilePath C.folder C.person (C.md5 (b k j0))
              (get_extension_from_url_or_content C.guessExt C.parse (u k j0) "image/jpeg")]⟩,
          1) := by
      rw [hF k j0 hkR hj0B]
      exact download_image_success C.md5 C.guessExt C.parse (u k j0) C.folder C.person
        "image/jpeg" (b k j0) st.fs (by rw [hbad]; exact List.not_mem_nil _)
        (by decide) hfresh
    have hstep : dispatchGo C k ((List.range' j0 (m + 1)).map (u k)) j0 st =
        dispatchGo C k ((List.range' (j0 + 1) m).map (u k)) (j0 + 1)
          ⟨⟨st.fs.seen_hashes ++ [C.md5 (b k j0)], st.fs.bad_domains,
            st.fs.files ++ [mkFilePath C.folder C.person (C.md5 (b k j0))
              (get_extension_from_url_or_content C.guessExt C.parse (u k j0) "image/jpeg")]⟩,
            st.seen_urls, st.downloaded_count + 1, st.batch_number, st.term_index⟩ := by
      rw [List.range'_succ, List.map_cons]
      simp only [dispatchGo, hurl]
      rw [if_pos ⟨rfl, by omega⟩]
    rw [hstep]
    have hprov2 : ∀ h ∈ st.fs.seen_hashes ++ [C.md5 (b k j0)],
        ∃ i2 j2, i2 < (C.num + C.batch_size - 1) / C.batch_size ∧ j2 < C.batch_size ∧
          h = C.md5 (b i2 j2) ∧ (i2 < k ∨ (i2 = k ∧ j2 < j0 + 1)) := by
      intro h hh
      rcases List.mem_append.1 hh with hh | hh
      · obtain ⟨i2, j2, a1, a2, a3, a4⟩ := hprov h hh
        refine ⟨i2, j2, a1, a2, a3, ?_⟩
        rcases a4 with a4 | ⟨a4, a5⟩
        · exact Or.inl a4
        · exact Or.inr ⟨a4, by omega⟩
      · have hh2 := List.mem_singleton.1 hh
        exact ⟨k, j0, hkR, hj0B, hh2, Or.inr ⟨rfl, by omega⟩⟩
    obtain ⟨d1, d2, d3, d4, d5, d6⟩ := ih (j0 + 1)
      ⟨⟨st.fs.seen_hashes ++ [C.md5 (b k j0)], st.fs.bad_domains,
        st.fs.files ++ [mkFilePath C.folder C.person (C.md5 (b k j0))
          (get_extension_from_url_or_content C.guessExt C.parse (u k j0) "image/jpeg")]⟩,
        st.seen_urls, st.downloaded_count + 1, st.batch_number, st.term_index⟩
      (by omega) hbad hprov2
      (by show st.downloaded_count + 1 + m ≤ C.num; omega)
    refine ⟨?_, d2, d3, d4, d5, ?_⟩
    · rw [d1]
      show st.downloaded_count + 1 + m = st.downloaded_count + (m + 1)
      omega
    · intro h hh
      obtain ⟨i2, j2, a1, a2, a3, a4⟩ := d6 h hh
      refine ⟨i2, j2, a1, a2, a3, ?_⟩
      rcases a4 with a4 | ⟨a4, a5⟩
      · exact Or.inl a4
      · exact Or.inr ⟨a4, by omega⟩

theorem c3_round (C : ScrapeCtx) (u : Nat → Nat → String) (b : Nat → Nat → List Nat) (k : Nat)
    (hterms : C.terms ≠ []) (hB : 0 < C.batch_size)
    (hIter : ∀ s, C.iterOrd s ⊆ s)
    (hkR : k < (C.num + C.batch_size - 1) / C.batch_size)
    (hu_ne : ∀ i, i < (C.num + C.batch_size - 1) / C.batch_size → ∀ j, j < C.batch_size →
      u i j ≠ "")
    (hu_inj : ∀ i, i < (C.num + C.batch_size - 1) / C.batch_size → ∀ j, j < C.batch_size →
      ∀ i2, i2 < (C.num + C.batch_size - 1) / C.batch_size → ∀ j2, j2 < C.batch_size →
      u i j = u i2 j2 → i = i2 ∧ j = j2)
    (hh_inj : ∀ i, i < (C.num + C.batch_size - 1) / C.batch_size → ∀ j, j < C.batch_size →
      ∀ i2, i2 < (C.num + C.batch_size - 1) / C.batch_size → ∀ j2, j2 < C.batch_size →
      C.md5 (b i j) = C.md5 (b i2 j2) → i = i2 ∧ j = j2)
    (hS : ∀ i kw, i < (C.num + C.batch_size - 1) / C.batch_size → C.searchO i kw =
      [SearchAttempt.ok ((List.range C.batch_size).map (fun j => some (u i j)))])
    (hF : ∀ i j, i < (C.num + C.batch_size - 1) / C.batch_size → j < C.batch_size →
      C.fetchO i j = [AttemptEvent.resp 200 "image/jpeg" (b i j) true])
    (st : OrchState)
    (hcount : st.downloaded_count = k * C.batch_size)
    (hlt : k * C.batch_size < C.num)
    (hbatch : st.batch_number = k)
    (hbad : st.fs.bad_domains = [])
    (hsu : ∀ x ∈ st.seen_urls, ∃ i2 j2, i2 < k ∧ j2 < C.batch_size ∧ x = u i2 j2)
    (hsh : ∀ h ∈ st.fs.seen_hashes, ∃ i2 j2, i2 < k ∧ j2 < C.batch_size ∧
      h = C.md5 (b i2 j2)) :
    ∃ st2, roundStep C k st = Sum.inr st2 ∧
      st2.downloaded_count = min C.num (k * C.batch_size + C.batch_size) ∧
      st2.batch_number = k + 1 ∧
      st2.fs.bad_domains = [] ∧
      (∀ x ∈ st2.seen_urls, ∃ i2 j2, i2 < k + 1 ∧ j2 < C.batch_size ∧ x = u i2 j2) ∧
      (∀ h ∈ st2.fs.seen_hashes, ∃ i2 j2, i2 < k + 1 ∧ j2 < C.batch_size ∧
        h = C.md5 (b i2 j2)) := by
  have hbpos : 0 < min C.batch_size (C.num - st.downloaded_count) := by
    rw [hcount]
    omega
  have hvs_nd : ((List.range C.batch_size).map (u k)).Nodup := by
    refine List.Nodup.map_on ?_ (List.nodup_range _)
    intro x hx y hy hxy
    exact (hu_inj k hkR x (List.mem_range.1 hx) k hkR y (List.mem_range.1 hy) hxy).2
  have hvs_fresh : ∀ v ∈ (List.range C.batch_size).map (u k),
      v ∉ st.seen_urls ∧ v ≠ "" := by
    intro v hv
    obtain ⟨j, hj, rfl⟩ := List.mem_map.1 hv
    have hjB := List.mem_range.1 hj
    refine ⟨?_, hu_ne k hkR j hjB⟩
    intro hc
    obtain ⟨i2, j2, hi2, hj2, heq⟩ := hsu _ hc
    have := hu_inj k hkR j hjB i2 (by omega) j2 hj2 heq
    omega
  have hmm2 : (List.range C.batch_size).map (fun j => some (u k j))
      = ((List.range C.batch_size).map (u k)).map some := by
    rw [List.map_map]
    rfl
  have htake : ((List.range C.batch_size).map (u k)).take
        (min C.batch_size (C.num - st.downloaded_count))
      = (List.range' 0 (min C.batch_size (C.num - st.downloaded_count))).map (u k) := by
    rw [← List.map_take, List.take_range, ← List.range_eq_range']
    rw [inf_eq_left.2 (min_le_left _ _)]
  have hsp : searchPhase C k st =
      ((List.range' 0 (min C.batch_size (C.num - st.downloaded_count))).map (u k),
        st.seen_urls ++
          (List.range' 0 (min C.batch_size (C.num - st.downloaded_count))).map (u k)) := by
    unfold searchPhase
    rw [hS k _ hkR]
    show collectUrls (min C.batch_size (C.num - st.downloaded_count))
      ((List.range C.batch_size).map (fun j => some (u k j))) st.seen_urls [] = _
    rw [hmm2]
    rw [collect_exact _ _ _ (by omega)
      (by simp only [List.length_map, List.length_range]; omega) hvs_fresh hvs_nd]
    rw [htake]
  have hurls_ne : ((List.range' 0 (min C.batch_size (C.num - st.downloaded_count))).map (u k))
      ≠ [] := by
    apply List.ne_nil_of_length_pos
    simp only [List.length_map, List.length_range']
    omega
  have hrs : roundStep C k st = Sum.inr (afterRound C (dispatchGo C k
      ((List.range' 0 (min C.batch_size (C.num - st.downloaded_count))).map (u k)) 0
      ⟨st.fs, st.seen_urls ++
          (List.range' 0 (min C.batch_size (C.num - st.downloaded_count))).map (u k),
        st.downloaded_count, st.batch_number, st.term_index⟩)) := by
    unfold roundStep
    rw [if_neg (show ¬C.terms.length = 0 from fun hh => hterms (List.length_eq_zero.1 hh))]
    rw [hsp]
    rw [if_neg (show ¬_ from fun hh => hurls_ne hh)]
  obtain ⟨d1, d2, d3, d4, d5, d6⟩ := c3_dispatch C u b k hkR hF hh_inj
    (min C.batch_size (C.num - st.downloaded_count)) 0
    ⟨st.fs, st.seen_urls ++
        (List.range' 0 (min C.batch_size (C.num - st.downloaded_count))).map (u k),
      st.downloaded_count, st.batch_number, st.term_index⟩
    (by omega)
    hbad
    (by
      intro h hh
      obtain ⟨i2, j2, a1, a2, a3⟩ := hsh h hh
      exact ⟨i2, j2, by omega, a2, a3, Or.inl a1⟩)
    (by show st.downloaded_count + min C.batch_size (C.num - st.downloaded_count) ≤ C.num
        rw [hcount]
        omega)
  refine ⟨_, hrs, ?_, ?_, d2, ?_, ?_⟩
  · show (dispatchGo C k
        ((List.range' 0 (min C.batch_size (C.num - st.downloaded_count))).map (u k)) 0
        ⟨st.fs, st.seen_urls ++
            (List.range' 0 (min C.batch_size (C.num - st.downloaded_count))).map (u k),
          st.downloaded_count, st.batch_number, st.term_index⟩).downloaded_count
      = min C.num (k * C.batch_size + C.batch_size)
    rw [d1]
    show st.downloaded_count + min C.batch_size (C.num - st.downloaded_count)
      = min C.num (k * C.batch_size + C.batch_size)
    rw [hcount]
    omega
  · show (dispatchGo C k
        ((List.range' 0 (min C.batch_size (C.num - st.downloaded_count))).map (u k)) 0
        ⟨st.fs, st.seen_urls ++
            (List.range' 0 (min C.batch_size (C.num - st.downloaded_count))).map (u k),
          st.downloaded_count, st.batch_number, st.term_index⟩).batch_number + 1
      = k + 1
    rw [d4]
    show st.batch_number + 1 = k + 1
    rw [hbatch]
  · intro x hx
    have hx2 := truncateSet_subset C.iterOrd _ (hIter _) hx
    rw [d3] at hx2
    have hx3 : x ∈ st.seen_urls ++
        (List.range' 0 (min C.batch_size (C.num - st.downloaded_count))).map (u k) := hx2
    rcases List.mem_append.1 hx3 with hx4 | hx4
    · obtain ⟨i2, j2, a1, a2, a3⟩ := hsu x hx4
      exact ⟨i2, j2, by omega, a2, a3⟩
    · obtain ⟨j, hj, rfl⟩ := List.mem_map.1 hx4
      rw [← List.range_eq_range'] at hj
      have hjb := List.mem_range.1 hj
      exact ⟨k, j, by omega, by omega, rfl⟩
  · intro h hh
    have hh2 := truncateSet_subset C.iterOrd _ (hIter _) hh
    obtain ⟨i2, j2, a1, a2, a3, a4⟩ := d6 h hh2
    refine ⟨i2, j2, ?_, a2, a3⟩
    rcases a4 with a4 | ⟨a4, a5⟩ <;> omega

theorem ceil_char (B num m : Nat) (hB : 0 < B) (hm : 1 ≤ m)
    (h1 : num ≤ m * B) (h2 : (m - 1) * B < num) : m = (num + B - 1) / B := by
  cases m with
  | zero => omega
  | succ m2 =>
    have e2 : (m2 + 1 - 1) * B = m2 * B := by
      have hx : m2 + 1 - 1 = m2 := by omega
      rw [hx]
    rw [e2] at h2
    have e3 : (m2 + 1) * B = m2 * B + B := by ring
    symm
    apply Nat.div_eq_of_lt_le
    · rw [e3]
      omega
    · have e4 : (m2 + 1 + 1) * B = m2 * B + B + B := by ring
      rw [e4]
      omega

theorem c3_last_round (C : ScrapeCtx) (u : Nat → Nat → String) (b : Nat → Nat → List Nat)
    (hterms : C.terms ≠ []) (hB : 0 < C.batch_size)
    (hIter : ∀ s, C.iterOrd s ⊆ s)
    (hu_ne : ∀ i, i < (C.num + C.batch_size - 1) / C.batch_size → ∀ j, j < C.batch_size →
      u i j ≠ "")
    (hu_inj : ∀ i, i < (C.num + C.batch_size - 1) / C.batch_size → ∀ j, j < C.batch_size →
      ∀ i2, i2 < (C.num + C.batch_size - 1) / C.batch_size → ∀ j2, j2 < C.batch_size →
      u i j = u i2 j2 → i = i2 ∧ j = j2)
    (hh_inj : ∀ i, i < (C.num + C.batch_size - 1) / C.batch_size → ∀ j, j < C.batch_size →
      ∀ i2, i2 < (C.num + C.batch_size - 1) / C.batch_size → ∀ j2, j2 < C.batch_size →
      C.md5 (b i j) = C.md5 (b i2 j2) → i = i2 ∧ j = j2)
    (hS : ∀ i kw, i < (C.num + C.batch_size - 1) / C.batch_size → C.searchO i kw =
      [SearchAttempt.ok ((List.range C.batch_size).map (fun j => some (u i j)))])
    (hF : ∀ i j, i < (C.num + C.batch_size - 1) / C.batch_size → j < C.batch_size →
      C.fetchO i j = [AttemptEvent.resp 200 "image/jpeg" (b i j) true])
    (k fuel : Nat) (st : OrchState)
    (hcount : st.downloaded_count = k * C.batch_size)
    (hlt : k * C.batch_size < C.num)
    (hbatch : st.batch_number = k)
    (hbad : st.fs.bad_domains = [])
    (hsu : ∀ x ∈ st.seen_urls, ∃ i2 j2, i2 < k ∧ j2 < C.batch_size ∧ x = u i2 j2)
    (hsh : ∀ h ∈ st.fs.seen_hashes, ∃ i2 j2, i2 < k ∧ j2 < C.batch_size ∧
      h = C.md5 (b i2 j2))
    (hlast : C.num ≤ k * C.batch_size + C.batch_size)
    (hfuel : 2 ≤ fuel) :
    ∃ st2, run C k fuel st = RunResult.done st2 ∧
      st2.downloaded_count = C.num ∧ st2.batch_number = k + 1 := by
  have hkR : k < (C.num + C.batch_size - 1) / C.batch_size := by
    have h9 := (Nat.le_div_iff_mul_le hB).2
      (show (k + 1) * C.batch_size ≤ C.num + C.batch_size - 1 by
        have e : (k + 1) * C.batch_size = k * C.batch_size + C.batch_size := by ring
        omega)
    omega
  obtain ⟨st2, hrs, e1, e2, e3, e4, e5⟩ := c3_round C u b k hterms hB hIter hkR
    hu_ne hu_inj hh_inj hS hF st hcount hlt hbatch hbad hsu hsh
  cases fuel with
  | zero => omega
  | succ f =>
    cases f with
    | zero => omega
    | succ f2 =>
      refine ⟨st2, ?_, by rw [e1]; omega, e2⟩
      rw [run_succ_eq, if_pos (hcount.symm ▸ hlt), hrs]
      show run C (k + 1) (f2 + 1) st2 = RunResult.done st2
      rw [run_succ_eq, if_neg (by rw [e1]; omega)]

theorem c3_run_aux (C : ScrapeCtx) (u : Nat → Nat → String) (b : Nat → Nat → List Nat)
    (hterms : C.terms ≠ []) (hB : 0 < C.batch_size)
    (hIter : ∀ s, C.iterOrd s ⊆ s)
    (hu_ne : ∀ i, i < (C.num + C.batch_size - 1) / C.batch_size → ∀ j, j < C.batch_size →
      u i j ≠ "")
    (hu_inj : ∀ i, i < (C.num + C.batch_size - 1) / C.batch_size → ∀ j, j < C.batch_size →
      ∀ i2, i2 < (C.num + C.batch_size - 1) / C.batch_size → ∀ j2, j2 < C.batch_size →
      u i j = u i2 j2 → i = i2 ∧ j = j2)
    (hh_inj : ∀ i, i < (C.num + C.batch_size - 1) / C.batch_size → ∀ j, j < C.batch_size →
      ∀ i2, i2 < (C.num + C.batch_size - 1) / C.batch_size → ∀ j2, j2 < C.batch_size →
      C.md5 (b i j) = C.md5 (b i2 j2) → i = i2 ∧ j = j2)
    (hS : ∀ i kw, i < (C.num + C.batch_size - 1) / C.batch_size → C.searchO i kw =
      [SearchAttempt.ok ((List.range C.batch_size).map (fun j => some (u i j)))])
    (hF : ∀ i j, i < (C.num + C.batch_size - 1) / C.batch_size → j < C.batch_size →
      C.fetchO i j = [AttemptEvent.resp 200 "image/jpeg" (b i j) true]) :
    ∀ (r k fuel : Nat) (st : OrchState),
    st.downloaded_count = k * C.batch_size → k * C.batch_size < C.num →
    st.batch_number = k → st.fs.bad_domains = [] →
    (∀ x ∈ st.seen_urls, ∃ i2 j2, i2 < k ∧ j2 < C.batch_size ∧ x = u i2 j2) →
    (∀ h ∈ st.fs.seen_hashes, ∃ i2 j2, i2 < k ∧ j2 < C.batch_size ∧
      h = C.md5 (b i2 j2)) →
    C.num ≤ k * C.batch_size + (r + 1) * C.batch_size →
    r + 2 ≤ fuel →
    ∃ st2, run C k fuel st = RunResult.done st2 ∧
      st2.downloaded_count = C.num ∧ 1 ≤ st2.batch_number ∧
      C.num ≤ st2.batch_number * C.batch_size ∧
      (st2.batch_number - 1) * C.batch_size < C.num := by
  intro r
  induction r with
  | zero =>
    intro k fuel st h1 h2 h3 h4 h5 h6 h7 h8
    have e1 : (0 + 1) * C.batch_size = C.batch_size := by ring
    rw [e1] at h7
    obtain ⟨st2, hrun, hc, hb⟩ := c3_last_round C u b hterms hB hIter hu_ne hu_inj hh_inj
      hS hF k fuel st h1 h2 h3 h4 h5 h6 h7 h8
    refine ⟨st2, hrun, hc, by omega, ?_, ?_⟩
    · rw [hb]
      have e : (k + 1) * C.batch_size = k * C.batch_size + C.batch_size := by ring
      omega
    · rw [hb]
      have e : k + 1 - 1 = k := by omega
      rw [e]
      exact h2
  | succ r ih =>
    intro k fuel st h1 h2 h3 h4 h5 h6 h7 h8
    by_cases hlast : C.num ≤ k * C.batch_size + C.batch_size
    · obtain ⟨st2, hrun, hc, hb⟩ := c3_last_round C u b hterms hB hIter hu_ne hu_inj hh_inj
        hS hF k fuel st h1 h2 h3 h4 h5 h6 hlast (by omega)
      refine ⟨st2, hrun, hc, by omega, ?_, ?_⟩
      · rw [hb]
        have e : (k + 1) * C.batch_size = k * C.batch_size + C.batch_size := by ring
        omega
      · rw [hb]
        have e : k + 1 - 1 = k := by omega
        rw [e]
        exact h2
    · have hkR : k < (C.num + C.batch_size - 1) / C.batch_size := by
        have h9 := (Nat.le_div_iff_mul_le hB).2
          (show (k + 1) * C.batch_size ≤ C.num + C.batch_size - 1 by
            have e : (k + 1) * C.batch_size = k * C.batch_size + C.batch_size := by ring
            omega)
        omega
      obtain ⟨st2, hrs, e1, e2, e3, e4, e5⟩ := c3_round C u b k hterms hB hIter hkR
        hu_ne hu_inj hh_inj hS hF st h1 h2 h3 h4 h5 h6
      cases fuel with
      | zero => omega
      | succ f =>
        have hstep : run C k (f + 1) st = run C (k + 1) f st2 := by
          rw [run_succ_eq, if_pos (h1.symm ▸ h2), hrs]
        rw [hstep]
        have ek : (k + 1) * C.batch_size = k * C.batch_size + C.batch_size := by ring
        have hcnt2 : st2.downloaded_count = (k + 1) * C.batch_size := by
          rw [e1, ek]
          omega
        refine ih (k + 1) f st2 hcnt2 (by omega) e2 e3 e4 e5 ?_ (by omega)
        have er : (r + 1 + 1) * C.batch_size = (r + 1) * C.batch_size + C.batch_size := by
          ring
        rw [er] at h7
        have er2 : (r + 1) * C.batch_size = r * C.batch_size + C.batch_size := by ring
        rw [ek, er2]
        rw [er2] at h7
        omega

/-- C3: with a backend stub that always returns a full batch of fresh
distinct URLs and a fetcher stub that always succeeds with pairwise
distinct payload digests, download_images terminates with
downloaded_count exactly num_images and executes exactly
ceil(num_images / batch_size) dispatch rounds. -/
theorem c3_target_convergence (md5 : List Nat → String) (guessExt : String → Option String)
    (parse : String → UrlParts) (iterOrd : List String → List String)
    (searchO : Nat → String → List SearchAttempt) (fetchO : Nat → Nat → List AttemptEvent)
    (search_terms : List String) (save_name : String) (num_images : Nat)
    (save_folder : String) (batch_size fuel : Nat)
    (u : Nat → Nat → String) (b : Nat → Nat → List Nat)
    (hB : 0 < batch_size) (hterms : search_terms ≠ [])
    (hIter : ∀ s, iterOrd s ⊆ s)
    (hu_ne : ∀ i, i < (num_images + batch_size - 1) / batch_size → ∀ j, j < batch_size →
      u i j ≠ "")
    (hu_inj : ∀ i, i < (num_images + batch_size - 1) / batch_size → ∀ j, j < batch_size →
      ∀ i2, i2 < (num_images + batch_size - 1) / batch_size → ∀ j2, j2 < batch_size →
      u i j = u i2 j2 → i = i2 ∧ j = j2)
    (hh_inj : ∀ i, i < (num_images + batch_size - 1) / batch_size → ∀ j, j < batch_size →
      ∀ i2, i2 < (num_images + batch_size - 1) / batch_size → ∀ j2, j2 < batch_size →
      md5 (b i j) = md5 (b i2 j2) → i = i2 ∧ j = j2)
    (hS : ∀ i kw, i < (num_images + batch_size - 1) / batch_size → searchO i kw =
      [SearchAttempt.ok ((List.range batch_size).map (fun j => some (u i j)))])
    (hF : ∀ i j, i < (num_images + batch_size - 1) / batch_size → j < batch_size →
      fetchO i j = [AttemptEvent.resp 200 "image/jpeg" (b i j) true])
    (hfuel : (num_images + batch_size - 1) / batch_size + 1 ≤ fuel) :
    ∃ st, download_images md5 guessExt parse iterOrd searchO fetchO search_terms save_name
        num_images save_folder batch_size fuel = RunResult.done st ∧
      st.downloaded_count = num_images ∧
      st.batch_number = (num_images + batch_size - 1) / batch_size := by
  by_cases hzero : num_images = 0
  · subst hzero
    cases fuel with
    | zero => exact absurd hfuel (Nat.not_succ_le_zero _)
    | succ f =>
      refine ⟨⟨⟨[], [], []⟩, [], 0, 0, 0⟩, ?_, rfl, ?_⟩
      · show run ⟨md5, guessExt, parse, iterOrd, searchO, fetchO, search_terms,
          save_folder ++ "/" ++
            String.mk (save_name.data.map (fun c => if c == ' ' then '_' else c)),
          save_name, 0, batch_size⟩ 0 (f + 1) ⟨⟨[], [], []⟩, [], 0, 0, 0⟩
          = RunResult.done ⟨⟨[], [], []⟩, [], 0, 0, 0⟩
        rw [run_succ_eq]
        exact if_neg (show ¬((0 : Nat) < 0) by omega)
      · show (0 : Nat) = (0 + batch_size - 1) / batch_size
        rw [Nat.zero_add]
        exact (Nat.div_eq_of_lt (by omega)).symm
  · have hnum : 0 < num_images := Nat.pos_of_ne_zero hzero
    have hR1 : 1 ≤ (num_images + batch_size - 1) / batch_size := by
      apply (Nat.le_div_iff_mul_le hB).2
      rw [Nat.one_mul]
      omega
    have hRge : num_images ≤ ((num_images + batch_size - 1) / batch_size) * batch_size := by
      have hd := Nat.div_add_mod (num_images + batch_size - 1) batch_size
      have hmlt : (num_images + batch_size - 1) % batch_size < batch_size :=
        Nat.mod_lt _ hB
      rw [Nat.mul_comm]
      omega
    obtain ⟨st2, hrun, hc, hm1, hge, hlt2⟩ := c3_run_aux
      ⟨md5, guessExt, parse, iterOrd, searchO, fetchO, search_terms,
        save_folder ++ "/" ++
          String.mk (save_name.data.map (fun c => if c == ' ' then '_' else c)),
        save_name, num_images, batch_size⟩ u b hterms hB hIter hu_ne hu_inj hh_inj hS hF
      ((num_images + batch_size - 1) / batch_size - 1) 0 fuel ⟨⟨[], [], []⟩, [], 0, 0, 0⟩
      (by show (0 : Nat) = 0 * batch_size; rw [Nat.zero_mul])
      (by show (0 : Nat) * batch_size < num_images; rw [Nat.zero_mul]; omega)
      rfl rfl
      (fun x hx => absurd hx (List.not_mem_nil x))
      (fun h hh => absurd hh (List.not_mem_nil h))
      (by
        have e : (num_images + batch_size - 1) / batch_size - 1 + 1
            = (num_images + batch_size - 1) / batch_size := by omega
        rw [e, Nat.zero_mul, Nat.zero_add]
        exact hRge)
      (by
        show (num_images + batch_size - 1) / batch_size - 1 + 2 ≤ fuel
        revert hfuel hR1
        generalize (num_images + batch_size - 1) / batch_size = R
        intro hfuel hR1
        omega)
    exact ⟨st2, hrun, hc, ceil_char batch_size num_images st2.batch_number hB hm1 hge hlt2⟩

theorem c3_target_convergence_witness :
    ∃ st, download_images
        (fun l => if l = [0] then "h0" else if l = [1] then "h1" else
          if l = [2] then "h2" else "h3")
        (fun _ => none) (fun _ => ⟨"d", "/a.png"⟩) (fun s => s)
        (fun i _ => [SearchAttempt.ok ((List.range 2).map (fun j => some
          (if i = 0 then (if j = 0 then "a" else "b")
            else (if j = 0 then "c" else "d"))))])
        (fun i j => [AttemptEvent.resp 200 "image/jpeg" [2 * i + j] true])
        ["k"] "n" 3 "dir" 2 3 = RunResult.done st ∧
      st.downloaded_count = 3 ∧ st.batch_number = (3 + 2 - 1) / 2 :=
  c3_target_convergence
    (fun l => if l = [0] then "h0" else if l = [1] then "h1" else
      if l = [2] then "h2" else "h3")
    (fun _ => none) (fun _ => ⟨"d", "/a.png"⟩) (fun s => s)
    (fun i _ => [SearchAttempt.ok ((List.range 2).map (fun j => some
      (if i = 0 then (if j = 0 then "a" else "b")
        else (if j = 0 then "c" else "d"))))])
    (fun i j => [AttemptEvent.resp 200 "image/jpeg" [2 * i + j] true])
    ["k"] "n" 3 "dir" 2 3
    (fun i j => if i = 0 then (if j = 0 then "a" else "b")
      else (if j = 0 then "c" else "d"))
    (fun i j => [2 * i + j])
    (by decide) (by decide) (fun s a ha => ha)
    (by
      intro i hi j hj
      have hi2 : i < 2 := by omega
      interval_cases i <;> interval_cases j <;> decide)
    (by
      intro i hi j hj i2 hi2 j2 hj2
      have ha : i < 2 := by omega
      have hb : i2 < 2 := by omega
      interval_cases i <;> interval_cases j <;> interval_cases i2 <;>
        interval_cases j2 <;> decide)
    (by
      intro i hi j hj i2 hi2 j2 hj2
      have ha : i < 2 := by omega
      have hb : i2 < 2 := by omega
      interval_cases i <;> interval_cases j <;> interval_cases i2 <;>
        interval_cases j2 <;> decide)
    (fun i kw hi => rfl) (fun i j hi hj => rfl) (by decide)
